import Mathlib

/-!
Verification of the FilteredSelectMultiple widget core.

Shallow embedding of the state/transfer engine of the
`filtered-select-multiple-widget` library: the option registry built by
`_buildState`, the two key partitions (`available`, `chosen`), the sorting
helper `_sortByIndex`, the filter predicate `_passesFilter`, the transfer
engine `_transfer` with its derived operations `_moveSelected` / `_moveAll`,
the sync bridge `_syncToOriginal`, and the button refresh `_updateButtons`.

Strings are Lean `String`s; the JS string operations used by the filter
(`toLowerCase`, `trim`, `split(/\s+/)`, `includes`, `startsWith`) are
modelled as character-list functions with the same semantics. JS `Map` is
an association list, JS `Set.has` is list membership, and the in-place
array mutations of `_transfer` become sequential state updates.
-/

namespace FSM

/-- Sentinel index `Number.MAX_SAFE_INTEGER` used by `_sortByIndex` for keys
absent from the option registry. -/
def maxSafeInteger : Nat := 9007199254740991

/-- Registry metadata for one option, as stored in `this.options`
(`{key, index, value, label, disabled, dataset, title, original}`; the key
is the map key, and `dataset` / `original` carry no transfer logic). -/
structure Item where
  index : Nat
  value : String
  label : String
  disabled : Bool
  title : String
  deriving Repr, DecidableEq

/-- One option of the source select element, the input of `_buildState`. -/
structure SourceOption where
  value : String
  label : String
  disabled : Bool
  selected : Bool
  title : String
  deriving Repr, DecidableEq

/-- Configuration options consulted by the engine:
`preserveSelectionOrder` and `filterMatchMode`. -/
structure Config where
  preserveSelectionOrder : Bool
  filterMatchMode : String
  deriving Repr, DecidableEq

/-- Pane type, one of the two partitions (`"available"` / `"chosen"`). -/
inductive Pane where
  | available
  | chosen
  deriving Repr, DecidableEq

/-- Events observable from a transfer: `_syncToOriginal()`, `_render()`,
and the bubbling change event from `_dispatchChange()`. -/
inductive Event where
  | sync
  | render
  | notify
  deriving Repr, DecidableEq

/-- Widget state: the option registry `this.options` (association list,
keys of the form `fsm-i`), the two partitions `this.available` /
`this.chosen`, and selected flags of the original select element's options
(written only by `_syncToOriginal`). -/
structure WidgetState where
  options : List (String × Item)
  available : List String
  chosen : List String
  sourceSelected : List (String × Bool)
  deriving Repr, DecidableEq

/-- Reads one partition, as in
`fromType === "available" ? this.available : this.chosen`. -/
def getPane (st : WidgetState) : Pane → List String
  | Pane.available => st.available
  | Pane.chosen => st.chosen

/-- Overwrites one partition (the in-place `splice` / `push` / `sort`
mutations become functional updates applied in program order). -/
def setPane (st : WidgetState) (p : Pane) (keys : List String) : WidgetState :=
  match p with
  | Pane.available => { st with available := keys }
  | Pane.chosen => { st with chosen := keys }

/-- Key assigned to the option at position `index`: the template string
interpolation producing `fsm-0`, `fsm-1`, ... -/
def itemKey (i : Nat) : String := "fsm-" ++ toString i

/-- Index lookup of `_sortByIndex`'s comparator:
`this.options.get(a)?.index ?? Number.MAX_SAFE_INTEGER`. -/
def keyIndex (opts : List (String × Item)) (k : String) : Nat :=
  match List.lookup k opts with
  | some m => m.index
  | none => maxSafeInteger

/-- Method `_sortByIndex(keys)`: sort of a key list by registry index,
missing keys counting as `Number.MAX_SAFE_INTEGER`. JS `Array.prototype.sort`
with comparator `ai - bi` is a stable ascending sort, modelled by stable
insertion sort under the `≤` comparison on indices. -/
def sortByIndex (opts : List (String × Item)) (keys : List String) : List String :=
  List.insertionSort (fun a b => keyIndex opts a ≤ keyIndex opts b) keys

/-- Method `_buildState()`: builds the registry from the source options,
assigning key `fsm-i` and `index = i` to the option at position `i`,
pushing each key to `chosen` when `option.selected` and to `available`
otherwise, then sorting `available` by index, and `chosen` too unless
`preserveSelectionOrder` is set. The `forEach` pushing keys in document
order is rendered as the two order-preserving filters. -/
def buildState (cfg : Config) (src : List SourceOption) : WidgetState :=
  let entries := src.enum.map fun p =>
    (itemKey p.1, Item.mk p.1 p.2.value p.2.label p.2.disabled p.2.title)
  let chosen0 := (src.enum.filter fun p => p.2.selected).map fun p => itemKey p.1
  let available0 := (src.enum.filter fun p => !p.2.selected).map fun p => itemKey p.1
  let available1 := sortByIndex entries available0
  let chosen1 := if !cfg.preserveSelectionOrder then sortByIndex entries chosen0 else chosen0
  { options := entries
    available := available1
    chosen := chosen1
    sourceSelected := src.enum.map fun p => (itemKey p.1, p.2.selected) }

/-- Removal step of `_transfer`:
`from.filter((key) => !keySet.has(key))` — drop the transferred keys,
keeping the remaining keys in their relative order. -/
def removeKeys (keys l : List String) : List String :=
  l.filter fun k => decide (k ∉ keys)

/-- Method `_syncToOriginal()`: sets each original option's selected flag
to membership of its key in the chosen partition (full overwrite). -/
def syncToOriginal (st : WidgetState) : WidgetState :=
  { st with sourceSelected := st.options.map fun p => (p.1, decide (p.1 ∈ st.chosen)) }

/-- Method `_transfer(keys, fromType, toType)`: remove `keys` from the
source partition, append them to the target partition, re-sort the source
partition by index, re-sort the target unless
(`preserveSelectionOrder && toType === "chosen"`), then sync to the
original select, render, and dispatch one change event. The returned event
list records the order of those three calls. -/
def transfer (cfg : Config) (st : WidgetState) (keys : List String)
    (fromType toType : Pane) : WidgetState × List Event :=
  let remaining := removeKeys keys (getPane st fromType)
  let st1 := setPane st fromType remaining
  let st2 := setPane st1 toType (getPane st1 toType ++ keys)
  let st3 := setPane st2 fromType (sortByIndex st2.options (getPane st2 fromType))
  let st4 :=
    if !cfg.preserveSelectionOrder || toType == Pane.available then
      setPane st3 toType (sortByIndex st3.options (getPane st3 toType))
    else st3
  let st5 := syncToOriginal st4
  (st5, [Event.sync, Event.render, Event.notify])

/-- Eligibility test used by `_moveSelected` and `_moveAll`:
`const meta = this.options.get(key); return meta && !meta.disabled;`. -/
def eligible (opts : List (String × Item)) (k : String) : Bool :=
  match List.lookup k opts with
  | some m => !m.disabled
  | none => false

/-- Method `_moveSelected(fromType, toType)`: transfers the currently
selected keys of the from pane (`selectedKeys`, read from the pane's
select element) that are registered and not disabled; does nothing when
no key qualifies. -/
def moveSelected (cfg : Config) (st : WidgetState) (selectedKeys : List String)
    (fromType toType : Pane) : WidgetState × List Event :=
  let keys := selectedKeys.filter (eligible st.options)
  if keys.length > 0 then transfer cfg st keys fromType toType else (st, [])

/-- Method `_moveAll(fromType, toType)`: transfers every registered
non-disabled key of the from partition; does nothing when no key
qualifies. -/
def moveAll (cfg : Config) (st : WidgetState)
    (fromType toType : Pane) : WidgetState × List Event :=
  let keys := (getPane st fromType).filter (eligible st.options)
  if keys.length > 0 then transfer cfg st keys fromType toType else (st, [])

/-- Item test of `_updateButtons`:
`!this.options.get(k)?.disabled` — note a key missing from the registry
yields `undefined`, whose negation is `true`. -/
def notDisabled (opts : List (String × Item)) (k : String) : Bool :=
  match List.lookup k opts with
  | some m => !m.disabled
  | none => true

/-- Disabled flags assigned to the four buttons by `_updateButtons`
(`_setButtonState(action, disabledFlag)`). -/
structure ButtonStates where
  addSelectedDisabled : Bool
  removeSelectedDisabled : Bool
  addAllDisabled : Bool
  removeAllDisabled : Bool
  deriving Repr, DecidableEq

/-- Method `_updateButtons()`: the selected-entry counts of the two pane
select elements are inputs; the add-all / remove-all availability checks
scan the partitions for a non-disabled item. -/
def updateButtons (st : WidgetState)
    (availableSelectedCount chosenSelectedCount : Nat) : ButtonStates :=
  let hasAvailableSelection := decide (availableSelectedCount > 0)
  let hasChosenSelection := decide (chosenSelectedCount > 0)
  let hasAvailableItems := st.available.any (notDisabled st.options)
  let hasChosenItems := st.chosen.any (notDisabled st.options)
  { addSelectedDisabled := !hasAvailableSelection
    removeSelectedDisabled := !hasChosenSelection
    addAllDisabled := !hasAvailableItems
    removeAllDisabled := !hasChosenItems }

/-- JS `String.prototype.toLowerCase`, modelled character-wise. -/
def lowerStr (s : String) : String := ⟨s.data.map Char.toLower⟩

/-- JS `String.prototype.trim`: strip leading and trailing whitespace. -/
def trimStr (s : String) : String :=
  ⟨((s.data.dropWhile Char.isWhitespace).reverse.dropWhile Char.isWhitespace).reverse⟩

/-- Splitting helper: cut a character list at every whitespace character. -/
def splitWsAux : List Char → List Char → List String
  | [], acc => [⟨acc.reverse⟩]
  | c :: rest, acc =>
    if c.isWhitespace then ⟨acc.reverse⟩ :: splitWsAux rest []
    else splitWsAux rest (c :: acc)

/-- JS `term.split(/\s+/)` composed with `filter(Boolean)` keeps exactly
the non-empty chunks between whitespace, so splitting at single whitespace
characters before the same filter is equivalent. -/
def splitWs (s : String) : List String := splitWsAux s.data []

/-- Token list of the `"contains"` branch:
`term.split(/\s+/).filter(Boolean)`. -/
def tokensOf (term : String) : List String :=
  (splitWs term).filter fun t => t != ""

/-- Substring search behind JS `haystack.includes(token)`. -/
def includesAux (needle : List Char) : List Char → Bool
  | [] => needle.isPrefixOf []
  | c :: t => needle.isPrefixOf (c :: t) || includesAux needle t

/-- JS `haystack.includes(token)`: token occurs contiguously in haystack. -/
def includesStr (hay needle : String) : Bool := includesAux needle.data hay.data

/-- JS `haystack.startsWith(term)`. -/
def startsWithStr (s pre : String) : Bool := pre.data.isPrefixOf s.data

/-- Method `_passesFilter(label, term)`: `term` is the already trimmed and
lower-cased query; the empty term matches everything; `"startsWith"` mode
is a prefix test on the lower-cased label; otherwise every non-empty
whitespace-separated token of the term must occur in the lower-cased
label. -/
def passesFilter (cfg : Config) (label term : String) : Bool :=
  if term == "" then true
  else
    let haystack := lowerStr label
    if cfg.filterMatchMode == "startsWith" then startsWithStr haystack term
    else (tokensOf term).all fun tok => includesStr haystack tok

/-- Filter evaluation as performed by `_renderPane`: the raw query is
trimmed and lower-cased (`filter.value.trim().toLowerCase()`) before
`_passesFilter` judges the label. -/
def matchesQuery (cfg : Config) (label query : String) : Bool :=
  passesFilter cfg label (lowerStr (trimStr query))

/-! Concrete fixtures used by the witness theorems. -/

/-- Default configuration: `preserveSelectionOrder = false`,
`filterMatchMode = "contains"`. -/
def cfgDefault : Config := ⟨false, ("contains")⟩

/-- Two source options, the first initially selected. -/
def srcTwo : List SourceOption :=
  [⟨"a", "Apple", false, true, ""⟩, ⟨"b", "Banana", false, false, ""⟩]

/-- Widget state built from `srcTwo`. -/
def stTwo : WidgetState := buildState cfgDefault srcTwo

/-- Three source options, the middle one disabled, none selected. -/
def srcDis : List SourceOption :=
  [⟨"a", "Apple", false, false, ""⟩, ⟨"b", "Banana", true, false, ""⟩,
   ⟨"c", "Cherry", false, false, ""⟩]

/-- Widget state built from `srcDis`. -/
def stDis : WidgetState := buildState cfgDefault srcDis

/-! Helper lemmas. -/

theorem sortByIndex_perm (opts : List (String × Item)) (keys : List String) :
    (sortByIndex opts keys).Perm keys :=
  List.perm_insertionSort _ _

instance idxLeTotal (opts : List (String × Item)) :
    IsTotal String fun a b => keyIndex opts a ≤ keyIndex opts b :=
  ⟨fun x y => Nat.le_total (keyIndex opts x) (keyIndex opts y)⟩

instance idxLeTrans (opts : List (String × Item)) :
    IsTrans String fun a b => keyIndex opts a ≤ keyIndex opts b :=
  ⟨fun _ _ _ => Nat.le_trans⟩

theorem sortByIndex_sorted (opts : List (String × Item)) (keys : List String) :
    (sortByIndex opts keys).Sorted fun a b => keyIndex opts a ≤ keyIndex opts b :=
  List.sorted_insertionSort _ _

theorem mem_removeKeys {keys l : List String} {k : String} :
    k ∈ removeKeys keys l ↔ k ∈ l ∧ k ∉ keys := by
  simp [removeKeys]

theorem removeKeys_eq_filter_not (keys l : List String) :
    removeKeys keys l = l.filter fun k => !decide (k ∈ keys) := by
  simp [removeKeys]

theorem filter_mem_perm {A keys : List String} (hA : A.Nodup) (hk : keys.Nodup)
    (hsub : ∀ k ∈ keys, k ∈ A) :
    (A.filter fun k => decide (k ∈ keys)).Perm keys := by
  refine List.perm_of_nodup_nodup_toFinset_eq (hA.filter _) hk ?_
  ext x
  simp only [List.mem_toFinset, List.mem_filter, decide_eq_true_eq]
  exact ⟨fun h => h.2, fun h => ⟨hsub x h, h⟩⟩

theorem perm_keys_append_removeKeys {A keys : List String} (hA : A.Nodup)
    (hk : keys.Nodup) (hsub : ∀ k ∈ keys, k ∈ A) :
    A.Perm (keys ++ removeKeys keys A) := by
  have hsplit := List.filter_append_perm (fun k => decide (k ∈ keys)) A
  rw [removeKeys_eq_filter_not]
  exact hsplit.symm.trans ((filter_mem_perm hA hk hsub).append_right _)

theorem length_removeKeys {A keys : List String} (hA : A.Nodup) (hk : keys.Nodup)
    (hsub : ∀ k ∈ keys, k ∈ A) :
    (removeKeys keys A).length = A.length - keys.length := by
  have h := (perm_keys_append_removeKeys hA hk hsub).length_eq
  rw [List.length_append] at h
  omega

theorem lookup_some_mem {k : String} {m : Item} :
    ∀ {opts : List (String × Item)}, List.lookup k opts = some m → (k, m) ∈ opts := by
  intro opts
  induction opts with
  | nil => intro h; simp [List.lookup] at h
  | cons p rest ih =>
    intro h
    rw [List.lookup] at h
    by_cases hk : k = p.1
    · subst hk
      simp only [beq_self_eq_true] at h
      cases h
      exact List.mem_cons_self _ _
    · have hbe : (k == p.1) = false := beq_false_of_ne hk
      rw [hbe] at h
      exact List.mem_cons_of_mem _ (ih h)

theorem transfer_getPane_from (cfg : Config) (st : WidgetState) (keys : List String)
    (ft tt : Pane) (hne : ft ≠ tt) :
    getPane (transfer cfg st keys ft tt).1 ft
      = sortByIndex st.options (removeKeys keys (getPane st ft)) := by
  cases ft <;> cases tt <;> first
    | exact absurd rfl hne
    | (simp only [transfer, getPane, setPane, syncToOriginal]
       split <;> rfl)

theorem transfer_getPane_to (cfg : Config) (st : WidgetState) (keys : List String)
    (ft tt : Pane) (hne : ft ≠ tt) :
    getPane (transfer cfg st keys ft tt).1 tt
      = if !cfg.preserveSelectionOrder || tt == Pane.available
        then sortByIndex st.options (getPane st tt ++ keys)
        else getPane st tt ++ keys := by
  cases ft <;> cases tt <;> first
    | exact absurd rfl hne
    | (simp only [transfer, getPane, setPane, syncToOriginal]
       split <;> simp_all)

theorem transfer_options_eq (cfg : Config) (st : WidgetState) (keys : List String)
    (ft tt : Pane) : (transfer cfg st keys ft tt).1.options = st.options := by
  cases ft <;> cases tt <;>
    (simp only [transfer, getPane, setPane, syncToOriginal]
     split <;> rfl)

theorem includesAux_iff (needle : List Char) :
    ∀ hay : List Char, includesAux needle hay = true ↔ needle <:+: hay := by
  intro hay
  induction hay with
  | nil =>
    simp [includesAux, List.isPrefixOf_iff_prefix, List.prefix_nil, List.infix_nil]
  | cons c t ih =>
    simp only [includesAux, Bool.or_eq_true, List.isPrefixOf_iff_prefix, ih,
      List.infix_cons_iff]

theorem includesStr_iff (hay needle : String) :
    includesStr hay needle = true ↔ needle.data <:+: hay.data :=
  includesAux_iff _ _

theorem string_eq_empty_iff (s : String) : s = "" ↔ s.data = [] := by
  constructor
  · intro h; rw [h]
  · intro h; cases s; simp_all

theorem buildState_options_eq (cfg : Config) (src : List SourceOption) :
    (buildState cfg src).options
      = src.enum.map fun p =>
          (itemKey p.1, Item.mk p.1 p.2.value p.2.label p.2.disabled p.2.title) :=
  rfl

theorem buildState_chosen_perm (cfg : Config) (src : List SourceOption) :
    ((buildState cfg src).chosen).Perm
      ((src.enum.filter fun p => p.2.selected).map fun p => itemKey p.1) := by
  dsimp only [buildState]
  split
  · exact sortByIndex_perm _ _
  · exact List.Perm.refl _

theorem buildState_available_perm (cfg : Config) (src : List SourceOption) :
    ((buildState cfg src).available).Perm
      ((src.enum.filter fun p => !p.2.selected).map fun p => itemKey p.1) := by
  dsimp only [buildState]
  exact sortByIndex_perm _ _

theorem buildState_sourceSelected_eq (cfg : Config) (src : List SourceOption) :
    (buildState cfg src).sourceSelected
      = src.enum.map fun p => (itemKey p.1, p.2.selected) :=
  rfl

theorem mem_enum_self (src : List SourceOption) (i : Nat) (h : i < src.length) :
    (i, src.get ⟨i, h⟩) ∈ src.enum := by
  have h1 : i < src.enum.length := by simpa [List.enum_length] using h
  have h2 : src.enum[i] = (i, src[i]) := List.getElem_enum src i h1
  have h3 := List.getElem_mem h1
  rw [h2] at h3
  simpa using h3

/-! Claim theorems. -/

/-- C3: inside every `_transfer`, synchronization of selected-state to the
source control happens strictly before the change notification is
dispatched, and rendering happens after the synchronization: the observable
call order is sync, then render, then notify, and when the notification
fires the source selected-state already reflects the final chosen
partition. -/
theorem transfer_sync_render_notify_order (cfg : Config) (st : WidgetState)
    (keys : List String) (ft tt : Pane) :
    (transfer cfg st keys ft tt).2 = [Event.sync, Event.render, Event.notify]
    ∧ ((transfer cfg st keys ft tt).2.indexOf Event.sync
        < (transfer cfg st keys ft tt).2.indexOf Event.render)
    ∧ ((transfer cfg st keys ft tt).2.indexOf Event.render
        < (transfer cfg st keys ft tt).2.indexOf Event.notify)
    ∧ (transfer cfg st keys ft tt).1.sourceSelected
        = (transfer cfg st keys ft tt).1.options.map fun p =>
            (p.1, decide (p.1 ∈ (transfer cfg st keys ft tt).1.chosen)) := by
  refine ⟨rfl, ?_, ?_, rfl⟩
  · show List.indexOf Event.sync [Event.sync, Event.render, Event.notify]
      < List.indexOf Event.render [Event.sync, Event.render, Event.notify]
    decide
  · show List.indexOf Event.render [Event.sync, Event.render, Event.notify]
      < List.indexOf Event.notify [Event.sync, Event.render, Event.notify]
    decide

/-- C5: the filter evaluator trims and lower-cases the query; an empty
(after trimming) query matches every label; `startsWith` mode is a
case-insensitive prefix test of the whole query against the whole label;
`contains` mode splits the query on whitespace and requires every
non-empty token to occur as a case-insensitive substring of the label.
Concretely, label `Green Apple` matches query `app gr` in contains mode
and fails query `apple ` in startsWith mode. -/
theorem filter_evaluator_semantics :
    (∀ (cfg : Config) (label q : String), trimStr q = "" →
      matchesQuery cfg label q = true)
    ∧ (∀ (po : Bool) (label q : String),
        matchesQuery ⟨po, ("startsWith")⟩ label q = true ↔
          (lowerStr (trimStr q)).data <+: (lowerStr label).data)
    ∧ (∀ (po : Bool) (label q : String),
        matchesQuery ⟨po, ("contains")⟩ label q = true ↔
          ∀ tok ∈ tokensOf (lowerStr (trimStr q)),
            tok.data <:+: (lowerStr label).data)
    ∧ matchesQuery ⟨false, ("contains")⟩ ("Green Apple") ("app gr") = true
    ∧ matchesQuery ⟨false, ("startsWith")⟩ ("Green Apple") ("apple ") = false := by
  refine ⟨?_, ?_, ?_, by decide, by decide⟩
  · intro cfg label q h
    unfold matchesQuery
    rw [h]
    rfl
  · intro po label q
    unfold matchesQuery passesFilter
    by_cases ht : lowerStr (trimStr q) = ""
    · rw [ht]
      simp [ List.nil_prefix]
    · have htb : (lowerStr (trimStr q) == "") = false := by
        simpa using ht
      rw [htb]
      simp only [Bool.false_eq_true, if_false]
      have hmode : ((("startsWith") : String) == ("startsWith")) = true := by decide
      rw [hmode]
      simp only [if_true, startsWithStr, List.isPrefixOf_iff_prefix]
  · intro po label q
    unfold matchesQuery passesFilter
    by_cases ht : lowerStr (trimStr q) = ""
    · rw [ht]
      have : tokensOf ("") = [] := by decide
      rw [this]
      simp
    · have htb : (lowerStr (trimStr q) == "") = false := by
        simpa using ht
      rw [htb]
      simp only [Bool.false_eq_true, if_false]
      have hmode : ((("contains") : String) == ("startsWith")) = false := by decide
      rw [hmode]
      simp only [Bool.false_eq_true, if_false, List.all_eq_true]
      constructor
      · intro hall tok htok
        exact (includesStr_iff _ _).1 (hall tok htok)
      · intro hall tok htok
        exact (includesStr_iff _ _).2 (hall tok htok)

/-- Witness for C5 at a concrete input: a whitespace-only query is trimmed
to empty and matches. -/
theorem filter_evaluator_semantics_witness :
    matchesQuery cfgDefault ("Green Apple") ("   ") = true :=
  filter_evaluator_semantics.1 cfgDefault ("Green Apple") ("   ") (by decide)

/-- C9 counterexample: the claim says load assigns key `item-i`; on the
one-option input the registry's only key is `fsm-0`, not `item-0`. -/
theorem load_key_prefix_counterexample :
    (buildState ⟨false, ("contains")⟩ [⟨"v", "L", false, false, ""⟩]).options.map Prod.fst
      = [("fsm-0")]
    ∧ (("fsm-0") : String) ≠ ("item-0") := by
  constructor
  · decide
  · decide

/-- C9 (amended): load assigns to the item at positional index `i` the key
`fsm-` ++ `i` (not `item-` ++ `i`) and `originalIndex = i`, and places the
item in `chosen` when its source-marked selected flag is true, else in
`available`. -/
theorem load_assignment_amended :
    ∀ (cfg : Config) (src : List SourceOption),
      (buildState cfg src).options
        = src.enum.map (fun p =>
            (itemKey p.1, Item.mk p.1 p.2.value p.2.label p.2.disabled p.2.title))
      ∧ ((buildState cfg src).chosen).Perm
          ((src.enum.filter fun p => p.2.selected).map fun p => itemKey p.1)
      ∧ ((buildState cfg src).available).Perm
          ((src.enum.filter fun p => !p.2.selected).map fun p => itemKey p.1)
      ∧ (∀ i (h : i < src.length), (src.get ⟨i, h⟩).selected = true →
          itemKey i ∈ (buildState cfg src).chosen)
      ∧ (∀ i (h : i < src.length), (src.get ⟨i, h⟩).selected = false →
          itemKey i ∈ (buildState cfg src).available) := by
  intro cfg src
  refine ⟨buildState_options_eq cfg src, buildState_chosen_perm cfg src,
    buildState_available_perm cfg src, ?_, ?_⟩
  · intro i h hsel
    have hmem := mem_enum_self src i h
    have hf : (i, src.get ⟨i, h⟩) ∈ src.enum.filter fun p => p.2.selected :=
      List.mem_filter.2 ⟨hmem, by simpa using hsel⟩
    have hmap := List.mem_map_of_mem (fun p => itemKey p.1) hf
    exact ((buildState_chosen_perm cfg src).mem_iff).2 hmap
  · intro i h hsel
    have hmem := mem_enum_self src i h
    have hf : (i, src.get ⟨i, h⟩) ∈ src.enum.filter fun p => !p.2.selected :=
      List.mem_filter.2 ⟨hmem, by simpa using hsel⟩
    have hmap := List.mem_map_of_mem (fun p => itemKey p.1) hf
    exact ((buildState_available_perm cfg src).mem_iff).2 hmap

/-- Witness for the amended C9 at a concrete input: in `srcTwo` the first
option is selected, so key `fsm-0` lands in the chosen partition. -/
theorem load_assignment_amended_witness :
    itemKey 0 ∈ (buildState cfgDefault srcTwo).chosen :=
  (load_assignment_amended cfgDefault srcTwo).2.2.2.1 0 (by decide) (by decide)

/-- C10: sorting by index is total on arbitrary key lists: the result is a
permutation of the input (no failure, no loss), it is sorted by the
index-or-sentinel measure, and — provided every registered index is below
`Number.MAX_SAFE_INTEGER` — every key missing from the registry is placed
after all registered keys. -/
theorem sortByIndex_total_unknown_last (opts : List (String × Item))
    (keys : List String) (hreg : ∀ p ∈ opts, p.2.index < maxSafeInteger) :
    (sortByIndex opts keys).Perm keys
    ∧ (sortByIndex opts keys).Sorted (fun a b => keyIndex opts a ≤ keyIndex opts b)
    ∧ ∀ (i j : Fin (sortByIndex opts keys).length), i < j →
        List.lookup ((sortByIndex opts keys).get i) opts = none →
        List.lookup ((sortByIndex opts keys).get j) opts = none := by
  refine ⟨sortByIndex_perm _ _, sortByIndex_sorted _ _, ?_⟩
  intro i j hij hi
  have hrel := (sortByIndex_sorted opts keys).rel_get_of_lt hij
  have hki : keyIndex opts ((sortByIndex opts keys).get i) = maxSafeInteger := by
    unfold keyIndex
    rw [hi]
  cases hj : List.lookup ((sortByIndex opts keys).get j) opts with
  | none => rfl
  | some m =>
    have hmem := lookup_some_mem hj
    have hlt := hreg _ hmem
    have hkj : keyIndex opts ((sortByIndex opts keys).get j) = m.index := by
      unfold keyIndex
      rw [hj]
    rw [hki, hkj] at hrel
    exact absurd hrel (by simpa using Nat.not_le.2 hlt)

/-- C1: partition completeness. At construction, the concatenation of the
available and chosen key sequences is a permutation of the registry's key
list for any construction input; and every transfer of a duplicate-free
key set taken from the (duplicate-free) source partition preserves the
multiset `available ++ chosen` and leaves the registry untouched, so the
two partitions always hold every registry key exactly once. -/
theorem partition_completeness :
    (∀ (cfg : Config) (src : List SourceOption),
      ((buildState cfg src).available ++ (buildState cfg src).chosen).Perm
        ((buildState cfg src).options.map Prod.fst))
    ∧ ∀ (cfg : Config) (st : WidgetState) (keys : List String) (ft tt : Pane),
        ft ≠ tt → keys.Nodup → (∀ k ∈ keys, k ∈ getPane st ft) →
        (getPane st ft).Nodup →
        ((transfer cfg st keys ft tt).1.available
            ++ (transfer cfg st keys ft tt).1.chosen).Perm
          (st.available ++ st.chosen)
        ∧ (transfer cfg st keys ft tt).1.options = st.options := by
  constructor
  · intro cfg src
    have h1 := buildState_available_perm cfg src
    have h2 := buildState_chosen_perm cfg src
    have hsplit := List.filter_append_perm (fun p => p.2.selected) src.enum
    have hmap := hsplit.map fun p => itemKey p.1
    rw [List.map_append] at hmap
    have hopts : (buildState cfg src).options.map Prod.fst
        = src.enum.map fun p => itemKey p.1 := by
      rw [buildState_options_eq, List.map_map]
      rfl
    rw [hopts]
    exact ((h1.append h2).trans List.perm_append_comm).trans hmap
  · intro cfg st keys ft tt hne hk hsub hfrom
    refine ⟨?_, transfer_options_eq cfg st keys ft tt⟩
    have hfromEq := transfer_getPane_from cfg st keys ft tt hne
    have htoEq := transfer_getPane_to cfg st keys ft tt hne
    have hfromPerm : (getPane (transfer cfg st keys ft tt).1 ft).Perm
        (removeKeys keys (getPane st ft)) := by
      rw [hfromEq]; exact sortByIndex_perm _ _
    have htoPerm : (getPane (transfer cfg st keys ft tt).1 tt).Perm
        (getPane st tt ++ keys) := by
      rw [htoEq]
      split
      · exact sortByIndex_perm _ _
      · exact List.Perm.refl _
    have hA := perm_keys_append_removeKeys hfrom hk hsub
    cases ft <;> cases tt <;> first
      | exact absurd rfl hne
      | skip
    · have s1 := hfromPerm.append htoPerm
      have s2 : (removeKeys keys st.available ++ (st.chosen ++ keys)).Perm
          (removeKeys keys st.available ++ (keys ++ st.chosen)) :=
        List.Perm.append_left _ List.perm_append_comm
      have s3 : (removeKeys keys st.available ++ (keys ++ st.chosen)).Perm
          ((keys ++ removeKeys keys st.available) ++ st.chosen) := by
        rw [← List.append_assoc]
        exact List.Perm.append_right _ List.perm_append_comm
      have s4 : ((keys ++ removeKeys keys st.available) ++ st.chosen).Perm
          (st.available ++ st.chosen) :=
        List.Perm.append_right _ hA.symm
      exact ((s1.trans s2).trans s3).trans s4
    · have s1 := htoPerm.append hfromPerm
      have s2 : ((st.available ++ keys) ++ removeKeys keys st.chosen).Perm
          (st.available ++ st.chosen) := by
        rw [List.append_assoc]
        exact List.Perm.append_left _ hA.symm
      exact s1.trans s2

/-- Witness for C1 at a concrete input: transferring key `fsm-1` from
available to chosen in the two-item state preserves the key multiset. -/
theorem partition_completeness_witness :
    ((transfer cfgDefault stTwo [("fsm-1")] Pane.available Pane.chosen).1.available
        ++ (transfer cfgDefault stTwo [("fsm-1")] Pane.available Pane.chosen).1.chosen).Perm
      (stTwo.available ++ stTwo.chosen) :=
  (partition_completeness.2 cfgDefault stTwo [("fsm-1")] Pane.available Pane.chosen
    (by decide) (by decide) (by decide) (by decide)).1

/-- C2: after every transfer between the two distinct panes, the source
partition is sorted by original index ascending; the target partition is
sorted by original index unless the order-preservation flag is set and the
target is the chosen partition, in which case the transferred keys are
appended at the end in the order given; a transfer into available is
sorted regardless of the flag. -/
theorem transfer_resort_rule (cfg : Config) (st : WidgetState)
    (keys : List String) (ft tt : Pane) (hne : ft ≠ tt) :
    (getPane (transfer cfg st keys ft tt).1 ft).Sorted
      (fun a b => keyIndex st.options a ≤ keyIndex st.options b)
    ∧ (cfg.preserveSelectionOrder = false ∨ tt = Pane.available →
        (getPane (transfer cfg st keys ft tt).1 tt).Sorted
          (fun a b => keyIndex st.options a ≤ keyIndex st.options b))
    ∧ (cfg.preserveSelectionOrder = true → tt = Pane.chosen →
        getPane (transfer cfg st keys ft tt).1 tt = getPane st tt ++ keys) := by
  refine ⟨?_, ?_, ?_⟩
  · rw [transfer_getPane_from cfg st keys ft tt hne]
    exact sortByIndex_sorted _ _
  · intro hcond
    rw [transfer_getPane_to cfg st keys ft tt hne]
    have : (!cfg.preserveSelectionOrder || tt == Pane.available) = true := by
      rcases hcond with h | h
      · simp [h]
      · simp [h]
    rw [this]
    simp only [if_true]
    exact sortByIndex_sorted _ _
  · intro hp htt
    rw [transfer_getPane_to cfg st keys ft tt hne]
    have : (!cfg.preserveSelectionOrder || tt == Pane.available) = false := by
      subst htt
      simp [hp]
    rw [this]
    simp

/-- Witness for C2 at a concrete input: available→chosen transfer in the
default configuration. -/
theorem transfer_resort_rule_witness :
    (getPane (transfer cfgDefault stTwo [("fsm-1")] Pane.available Pane.chosen).1
        Pane.available).Sorted
      (fun a b => keyIndex stTwo.options a ≤ keyIndex stTwo.options b) :=
  (transfer_resort_rule cfgDefault stTwo [("fsm-1")] Pane.available Pane.chosen
    (by decide)).1

/-- C6: transfer cardinality. For a non-empty duplicate-free key set taken
from the (duplicate-free) source partition, the source shrinks by `|K|`,
the target grows by `|K|`, no transferred key remains in the source, every
transferred key is in the target, and the removal step keeps the remaining
source keys in their relative order (it is a sublist of the source). -/
theorem transfer_cardinality (cfg : Config) (st : WidgetState)
    (keys : List String) (ft tt : Pane) (hne : ft ≠ tt) (hk : keys.Nodup)
    (hsub : ∀ k ∈ keys, k ∈ getPane st ft) (hfrom : (getPane st ft).Nodup) :
    (getPane (transfer cfg st keys ft tt).1 ft).length
      = (getPane st ft).length - keys.length
    ∧ (getPane (transfer cfg st keys ft tt).1 tt).length
      = (getPane st tt).length + keys.length
    ∧ (∀ k ∈ keys, k ∉ getPane (transfer cfg st keys ft tt).1 ft)
    ∧ (∀ k ∈ keys, k ∈ getPane (transfer cfg st keys ft tt).1 tt)
    ∧ (removeKeys keys (getPane st ft)).Sublist (getPane st ft) := by
  have hfromEq := transfer_getPane_from cfg st keys ft tt hne
  have htoEq := transfer_getPane_to cfg st keys ft tt hne
  have hfromPerm : (getPane (transfer cfg st keys ft tt).1 ft).Perm
      (removeKeys keys (getPane st ft)) := by
    rw [hfromEq]; exact sortByIndex_perm _ _
  have htoPerm : (getPane (transfer cfg st keys ft tt).1 tt).Perm
      (getPane st tt ++ keys) := by
    rw [htoEq]
    split
    · exact sortByIndex_perm _ _
    · exact List.Perm.refl _
  refine ⟨?_, ?_, ?_, ?_, List.filter_sublist _⟩
  · rw [hfromPerm.length_eq]
    exact length_removeKeys hfrom hk hsub
  · rw [htoPerm.length_eq, List.length_append]
  · intro k hkmem
    rw [hfromPerm.mem_iff, mem_removeKeys]
    exact fun h => h.2 hkmem
  · intro k hkmem
    rw [htoPerm.mem_iff]
    exact List.mem_append_right _ hkmem

/-- Witness for C6 at a concrete input: moving `fsm-1` out of the two-key
available partition leaves one available key and two chosen keys. -/
theorem transfer_cardinality_witness :
    (getPane (transfer cfgDefault stTwo [("fsm-1")] Pane.available Pane.chosen).1
        Pane.available).length
      = (getPane stTwo Pane.available).length - 1 :=
  (transfer_cardinality cfgDefault stTwo [("fsm-1")] Pane.available Pane.chosen
    (by decide) (by decide) (by decide) (by decide)).1

/-- C4: `_moveAll` transfers exactly the registered non-disabled keys of
the source partition (the pane's filtered/visible state plays no role in
its input); it is a no-op emitting no event when no key qualifies; and a
disabled key always remains in the source partition. -/
theorem moveAll_disabled_exclusion (cfg : Config) (st : WidgetState)
    (ft tt : Pane) (hne : ft ≠ tt) :
    ((getPane st ft).filter (eligible st.options) = [] →
      moveAll cfg st ft tt = (st, []))
    ∧ ((getPane st ft).filter (eligible st.options) ≠ [] →
      moveAll cfg st ft tt
        = transfer cfg st ((getPane st ft).filter (eligible st.options)) ft tt)
    ∧ ∀ k ∈ getPane st ft, ∀ m : Item, List.lookup k st.options = some m →
        m.disabled = true → k ∈ getPane (moveAll cfg st ft tt).1 ft := by
  refine ⟨?_, ?_, ?_⟩
  · intro h
    simp [moveAll, h]
  · intro h
    simp only [moveAll]
    rw [if_pos (List.length_pos.2 h)]
  · intro k hkp m hm hd
    by_cases hkeys : (getPane st ft).filter (eligible st.options) = []
    · have hres : moveAll cfg st ft tt = (st, []) := by simp [moveAll, hkeys]
      rw [hres]
      exact hkp
    · have hres : moveAll cfg st ft tt
          = transfer cfg st ((getPane st ft).filter (eligible st.options)) ft tt := by
        simp only [moveAll]
        rw [if_pos (List.length_pos.2 hkeys)]
      rw [hres, transfer_getPane_from cfg st _ ft tt hne,
        (sortByIndex_perm _ _).mem_iff, mem_removeKeys]
      refine ⟨hkp, fun hin => ?_⟩
      have helig := (List.mem_filter.1 hin).2
      unfold eligible at helig
      rw [hm] at helig
      simp [hd] at helig

/-- Witness for C4 at a concrete input: in `stDis` the key `fsm-1` is
disabled, so it stays in the available partition after move-all. -/
theorem moveAll_disabled_exclusion_witness :
    ("fsm-1") ∈ getPane (moveAll cfgDefault stDis Pane.available Pane.chosen).1
      Pane.available :=
  (moveAll_disabled_exclusion cfgDefault stDis Pane.available Pane.chosen
      (by decide)).2.2 ("fsm-1") (by decide) ⟨1, "b", "Banana", true, ""⟩
    (by decide) (by decide)

/-- C7: `_moveSelected` transfers exactly the currently selected keys of
the source pane that are registered and non-disabled, and is a silent
no-op — unchanged state, no event — when that set is empty. -/
theorem moveSelected_semantics (cfg : Config) (st : WidgetState)
    (selectedKeys : List String) (ft tt : Pane) :
    (selectedKeys.filter (eligible st.options) = [] →
      moveSelected cfg st selectedKeys ft tt = (st, []))
    ∧ (selectedKeys.filter (eligible st.options) ≠ [] →
      moveSelected cfg st selectedKeys ft tt
        = transfer cfg st (selectedKeys.filter (eligible st.options)) ft tt) := by
  constructor
  · intro h
    simp [moveSelected, h]
  · intro h
    simp only [moveSelected]
    rw [if_pos (List.length_pos.2 h)]

/-- Witness for C7 at a concrete input: a selection holding only an
unregistered key is ineligible, so the operation is a silent no-op. -/
theorem moveSelected_semantics_witness :
    moveSelected cfgDefault stTwo [("fsm-9")] Pane.available Pane.chosen
      = (stTwo, []) :=
  (moveSelected_semantics cfgDefault stTwo [("fsm-9")] Pane.available
    Pane.chosen).1 (by decide)

/-- C8: after a button refresh the add-all control is enabled (its
disabled flag is false) iff the available partition holds at least one
registered non-disabled item, and remove-all mirrors this for the chosen
partition, provided every partition key is registered. -/
theorem bulk_button_enablement (st : WidgetState) (a c : Nat)
    (hA : ∀ k ∈ st.available, (List.lookup k st.options).isSome = true)
    (hC : ∀ k ∈ st.chosen, (List.lookup k st.options).isSome = true) :
    ((updateButtons st a c).addAllDisabled = false ↔
      ∃ k ∈ st.available, ∃ m : Item,
        List.lookup k st.options = some m ∧ m.disabled = false)
    ∧ ((updateButtons st a c).removeAllDisabled = false ↔
      ∃ k ∈ st.chosen, ∃ m : Item,
        List.lookup k st.options = some m ∧ m.disabled = false) := by
  have key : ∀ (l : List String),
      (∀ k ∈ l, (List.lookup k st.options).isSome = true) →
      ((!l.any (notDisabled st.options)) = false ↔
        ∃ k ∈ l, ∃ m : Item,
          List.lookup k st.options = some m ∧ m.disabled = false) := by
    intro l hl
    rw [Bool.not_eq_false', List.any_eq_true]
    constructor
    · rintro ⟨k, hkl, hnd⟩
      have hs := hl k hkl
      cases hlk : List.lookup k st.options with
      | none => rw [hlk] at hs; simp at hs
      | some m =>
        refine ⟨k, hkl, m, hlk, ?_⟩
        unfold notDisabled at hnd
        rw [hlk] at hnd
        simpa using hnd
    · rintro ⟨k, hkl, m, hlk, hdis⟩
      refine ⟨k, hkl, ?_⟩
      unfold notDisabled
      rw [hlk]
      simp [hdis]
  exact ⟨key st.available hA, key st.chosen hC⟩

/-- Witness for C8 at a concrete input: `stDis` has non-disabled available
items, and the add-all enablement equivalence holds there. -/
theorem bulk_button_enablement_witness :
    (updateButtons stDis 0 0).addAllDisabled = false ↔
      ∃ k ∈ stDis.available, ∃ m : Item,
        List.lookup k stDis.options = some m ∧ m.disabled = false :=
  (bulk_button_enablement stDis 0 0 (by decide) (by decide)).1

/-- Registry with a single entry, for the C10 witness. -/
def optsOne : List (String × Item) := [(("fsm-0"), ⟨0, "a", "Apple", false, ""⟩)]

/-- Witness for C10 at a concrete input: sorting a list holding an unknown
key permutes it without failing. -/
theorem sortByIndex_total_unknown_last_witness :
    (sortByIndex optsOne [("zzz"), ("fsm-0")]).Perm [("zzz"), ("fsm-0")] :=
  (sortByIndex_total_unknown_last optsOne [("zzz"), ("fsm-0")] (by decide)).1

end FSM
